import Mathlib

/-
Verification of the curaq-clipper browser extension against its
specification.  The entire functional surface of the repository is the
popup click handler in src/entrypoints/popup/main.ts:

  document.getElementById("share-btn")?.addEventListener("click", async () => {
    const [tab] = await browser.tabs.query({ active: true, currentWindow: true });
    if (tab?.url) {
      const encodedUrl = encodeURIComponent(tab.url);
      const targetUrl = `https://curaq.pages.dev/share?url=${encodedUrl}`;
      await browser.tabs.create({ url: targetUrl });
    }
  });

The embedding below models the JavaScript builtins the handler uses
(encodeURIComponent per ECMA-262, and the matching decode for the
round-trip properties) and the handler itself as a function from the
host query result to the list of tab-creation requests it issues.
-/

set_option maxHeartbeats 1000000

namespace CuraqClipper

/-- Uppercase hexadecimal digit for a value below 16, as used by the
ECMA-262 Encode abstract operation (encodeURIComponent emits uppercase
hex digits). -/
def hexUpper (n : Nat) : Char :=
  if n < 10 then Char.ofNat (48 + n) else Char.ofNat (55 + n)

/-- UTF-8 byte sequence of a Unicode scalar value. -/
def utf8Bytes (n : Nat) : List Nat :=
  if n < 0x80 then [n]
  else if n < 0x800 then [0xC0 + n / 64, 0x80 + n % 64]
  else if n < 0x10000 then [0xE0 + n / 4096, 0x80 + (n / 64) % 64, 0x80 + n % 64]
  else [0xF0 + n / 262144, 0x80 + (n / 4096) % 64, 0x80 + (n / 64) % 64, 0x80 + n % 64]

/-- The characters the JavaScript encodeURIComponent builtin leaves
unescaped (the uriUnescaped set of ECMA-262): ASCII alphanumerics and
the nine marks with code points 45 `-`, 95 `_`, 46 `.`, 33 `!`, 126 `~`,
42 `*`, 39 (apostrophe), 40 `(`, 41 `)`. -/
def isUriUnescaped (c : Char) : Bool :=
  (65 ≤ c.toNat && c.toNat ≤ 90) || (97 ≤ c.toNat && c.toNat ≤ 122)
  || (48 ≤ c.toNat && c.toNat ≤ 57)
  || c.toNat == 45 || c.toNat == 95 || c.toNat == 46 || c.toNat == 33
  || c.toNat == 126 || c.toNat == 42 || c.toNat == 39 || c.toNat == 40 || c.toNat == 41

/-- Percent-escape of one byte: a percent sign followed by two uppercase
hexadecimal digits. -/
def escapeByte (b : Nat) : List Char :=
  ['%', hexUpper (b / 16), hexUpper (b % 16)]

/-- One character of encodeURIComponent output: an unescaped character
passes through, every other character is replaced by the percent-escapes
of its UTF-8 bytes. -/
def encodeChar (c : Char) : List Char :=
  if isUriUnescaped c then [c] else (utf8Bytes c.toNat).flatMap escapeByte

/-- Model of the JavaScript encodeURIComponent builtin applied at
src/entrypoints/popup/main.ts line 4 (ECMA-262 Encode with the
uriUnescaped set). -/
def encodeURIComponent (s : String) : String :=
  ⟨s.data.flatMap encodeChar⟩

/-- Value of one hexadecimal digit character, case-insensitive. -/
def hexVal (c : Char) : Option Nat :=
  if 48 ≤ c.toNat ∧ c.toNat ≤ 57 then some (c.toNat - 48)
  else if 65 ≤ c.toNat ∧ c.toNat ≤ 70 then some (c.toNat - 55)
  else if 97 ≤ c.toNat ∧ c.toNat ≤ 102 then some (c.toNat - 87)
  else none

/-- First phase of decodeURIComponent: turn the character sequence into
the byte sequence it denotes.  A percent sign must be followed by two
hexadecimal digits and contributes that byte; any other character
contributes its own UTF-8 bytes. -/
def percentDecodeBytes : List Char → Option (List Nat)
  | [] => some []
  | c :: rest =>
    if c = '%' then
      match rest with
      | h1 :: h2 :: rest2 =>
        match hexVal h1, hexVal h2 with
        | some a, some b => (percentDecodeBytes rest2).map (fun bs => (16 * a + b) :: bs)
        | _, _ => none
      | _ => none
    else (percentDecodeBytes rest).map (fun bs => utf8Bytes c.toNat ++ bs)

/-- One step of strict UTF-8 decoding: from a lead byte and the bytes
after it, the scalar value the sequence encodes and the remaining bytes.
Truncated sequences, stray continuation bytes, overlong encodings,
surrogate code points and values above 0x10FFFF are rejected. -/
def utf8Step (b1 : Nat) (rest : List Nat) : Option (Nat × List Nat) :=
  if b1 < 0x80 then some (b1, rest)
  else if b1 < 0xC2 then none
  else if b1 < 0xE0 then
    match rest with
    | b2 :: rest2 =>
      if 0x80 ≤ b2 ∧ b2 < 0xC0 then some ((b1 - 0xC0) * 64 + (b2 - 0x80), rest2) else none
    | [] => none
  else if b1 < 0xF0 then
    match rest with
    | b2 :: b3 :: rest2 =>
      if (0x80 ≤ b2 ∧ b2 < 0xC0) ∧ (0x80 ≤ b3 ∧ b3 < 0xC0) then
        if 0x800 ≤ (b1 - 0xE0) * 4096 + (b2 - 0x80) * 64 + (b3 - 0x80) ∧
           ((b1 - 0xE0) * 4096 + (b2 - 0x80) * 64 + (b3 - 0x80) < 0xD800 ∨
            0xDFFF < (b1 - 0xE0) * 4096 + (b2 - 0x80) * 64 + (b3 - 0x80)) then
          some ((b1 - 0xE0) * 4096 + (b2 - 0x80) * 64 + (b3 - 0x80), rest2)
        else none
      else none
    | _ => none
  else if b1 < 0xF5 then
    match rest with
    | b2 :: b3 :: b4 :: rest2 =>
      if (0x80 ≤ b2 ∧ b2 < 0xC0) ∧ (0x80 ≤ b3 ∧ b3 < 0xC0) ∧ (0x80 ≤ b4 ∧ b4 < 0xC0) then
        if 0x10000 ≤ (b1 - 0xF0) * 262144 + (b2 - 0x80) * 4096 + (b3 - 0x80) * 64 + (b4 - 0x80) ∧
           (b1 - 0xF0) * 262144 + (b2 - 0x80) * 4096 + (b3 - 0x80) * 64 + (b4 - 0x80) < 0x110000 then
          some ((b1 - 0xF0) * 262144 + (b2 - 0x80) * 4096 + (b3 - 0x80) * 64 + (b4 - 0x80), rest2)
        else none
      else none
    | _ => none
  else none

/-- Second phase of decodeURIComponent: strict UTF-8 decoding of a byte
sequence, one scalar value at a time. -/
def utf8DecodeBytes : List Nat → Option (List Char)
  | [] => some []
  | b1 :: rest =>
    match hstep : utf8Step b1 rest with
    | some (n, rest2) => (utf8DecodeBytes rest2).map (fun cs => Char.ofNat n :: cs)
    | none => none
termination_by bs => bs.length
decreasing_by
  simp only [List.length_cons]
  unfold utf8Step at hstep
  repeat' split at hstep
  all_goals simp_all
  all_goals omega

/-- Model of the JavaScript decodeURIComponent builtin: percent-decoding
followed by UTF-8 decoding, failing (URIError) on malformed input. -/
def decodeURIComponent (s : String) : Option String :=
  (percentDecodeBytes s.data).bind (fun bs => (utf8DecodeBytes bs).map (fun cs => ⟨cs⟩))

/-- A browsing-context descriptor as consumed by the handler.  Only the
optional url field is read; the field is absent when the host does not
expose an address for the tab. -/
structure Tab where
  url : Option String

/-- The fixed literal target base of main.ts line 5. -/
def shareBase : String := "https://curaq.pages.dev/share?url="

/-- The target address built at main.ts line 5: the fixed base
concatenated with the encoded source address. -/
def targetUrl (u : String) : String := shareBase ++ encodeURIComponent u

/-- The click handler body of main.ts lines 2 to 7, as a function from
the host query result (the list of matching tabs) to the list of
tab-creation requests it issues.  The destructuring const [tab] reads
the head of the list; the guard if (tab?.url) is JavaScript truthiness,
so the branch is taken exactly when a first tab exists and its url is a
present, non-empty string. -/
def clickHandler (tabs : List Tab) : List String :=
  match tabs.head? with
  | none => []
  | some tab =>
    match tab.url with
    | none => []
    | some u => if u = "" then [] else [targetUrl u]

/-- One handler invocation including the awaited host query.  When the
query rejects, the await rethrows before any create call runs, so the
rejection propagates out of the handler and the list of issued
tab-creation requests is empty. -/
def handlerRun (q : Except Unit (List Tab)) : Except Unit Unit × List String :=
  match q with
  | Except.error e => (Except.error e, [])
  | Except.ok tabs => (Except.ok (), clickHandler tabs)

/-- Script load of main.ts line 1.  getElementById returns the element
or null; the optional chain makes addEventListener run only when the
element is present and evaluate to undefined without any call (and
without a TypeError) when it is absent.  The result is the number of
registered click handlers. -/
def optChainRegister (shareBtn : Option Unit) : Except Unit Nat :=
  match shareBtn with
  | some _ => Except.ok 1
  | none => Except.ok 0

/-- Tab-creation requests produced by one click on the popup surface:
the handler runs once per click when it was registered, and nothing
runs when line 1 registered no handler. -/
def clickOnPage (shareBtn : Option Unit) (tabs : List Tab) : List String :=
  match shareBtn with
  | some _ => clickHandler tabs
  | none => []

/-- Two invocations of the handler in rapid succession: each click
independently queries the host and independently issues its requests,
with no deduplication or serialisation between the two. -/
def twoClicks (tabs1 tabs2 : List Tab) : List String × List String :=
  (clickHandler tabs1, clickHandler tabs2)

/-- The reserved set listed by the specification (claim C2), together
with the space character.  Code point 39 is the apostrophe. -/
def reservedListC2 : List Char :=
  [':', '/', '?', '#', '[', ']', '@', '!', '$', '&', Char.ofNat 39,
   '(', ')', '*', '+', ',', ';', '=', ' ']

/-- The unreserved set listed by the specification (claim C2): ASCII
alphanumerics and the four marks with code points 45 `-`, 95 `_`,
46 `.`, 126 `~`. -/
def isUnreservedC2 (c : Char) : Bool :=
  (65 ≤ c.toNat && c.toNat ≤ 90) || (97 ≤ c.toNat && c.toNat ≤ 122)
  || (48 ≤ c.toNat && c.toNat ≤ 57)
  || c.toNat == 45 || c.toNat == 95 || c.toNat == 46 || c.toNat == 126

/-- Whether the encoding escapes a character: its encoding starts with a
percent sign rather than being the character itself. -/
def escapes (c : Char) : Bool := (encodeChar c).head? == some '%'

/-- Claim C2 exactly as stated: every character of the listed reserved
set is escaped, and every listed unreserved character is left as
itself. -/
def claimC2 : Prop :=
  (∀ c ∈ reservedListC2, escapes c = true) ∧
  (∀ c : Char, isUnreservedC2 c = true → encodeChar c = [c])

/-- The part of the reserved set of claim C2 that the code does escape. -/
def escapedByCodeC2 : List Char :=
  [':', '/', '?', '#', '[', ']', '@', '$', '&', '+', ',', ';', '=', ' ']

/-- The part of the reserved set of claim C2 that the code leaves
unescaped: code points 33 `!`, 42 `*`, 39 (apostrophe), 40 `(`, 41 `)`. -/
def keptByCodeC2 : List Char :=
  ['!', '*', Char.ofNat 39, '(', ')']

/-- Rest of a character list after the first question mark, if any: the
query component of an address. -/
def afterQ : List Char → Option (List Char)
  | [] => none
  | c :: rest => if c = '?' then some rest else afterQ rest

/-- Split a query component on ampersands into its parameters.  The
result is never empty, so prepending a character to its first element is
done through headD and tail. -/
def splitOnAmp : List Char → List (List Char)
  | [] => [[]]
  | c :: rest =>
    if c = '&' then [] :: splitOnAmp rest
    else (c :: (splitOnAmp rest).headD []) :: (splitOnAmp rest).tail

/-- The value of a parameter of the form url=..., if the parameter has
that form. -/
def stripUrlEq : List Char → Option (List Char)
  | a :: b :: c :: d :: v =>
    if a = 'u' ∧ b = 'r' ∧ c = 'l' ∧ d = '=' then some v else none
  | _ => none

/-- The value of the url query parameter of an address: the first
parameter of the form url=... in the query component, the query
component being what follows the first question mark, truncated at the
first hash sign. -/
def urlQueryParam (s : String) : Option String :=
  (afterQ s.data).bind fun q =>
    ((splitOnAmp (q.takeWhile (fun c => c != '#'))).findSome? stripUrlEq).map fun v => ⟨v⟩

/-! Helper lemmas -/

/-- Every Unicode scalar value carried by a Char is below 0x110000. -/
theorem char_toNat_lt (c : Char) : c.toNat < 0x110000 := by
  rcases c.valid with h | h
  · exact Nat.lt_trans h (by norm_num)
  · exact h.2

/-- No Char carries a surrogate code point. -/
theorem char_not_surrogate (c : Char) : c.toNat < 0xD800 ∨ 0xDFFF < c.toNat := by
  rcases c.valid with h | h
  · exact Or.inl h
  · exact Or.inr h.1

/-- hexVal inverts hexUpper on digit values. -/
theorem hexVal_hexUpper : ∀ k < 16, hexVal (hexUpper k) = some k := by decide

/-- Decoding a percent-escaped byte prepends that byte. -/
theorem percentDecodeBytes_escapeByte (b : Nat) (hb : b < 256) (l : List Char) :
    percentDecodeBytes (escapeByte b ++ l)
      = (percentDecodeBytes l).map (fun bs => b :: bs) := by
  have h1 : b / 16 < 16 := by omega
  have h2 : b % 16 < 16 := by omega
  simp [escapeByte, percentDecodeBytes, hexVal_hexUpper _ h1, hexVal_hexUpper _ h2,
    Nat.div_add_mod]

/-- All UTF-8 bytes of a scalar value fit in one byte. -/
theorem utf8Bytes_lt_256 {n : Nat} (h : n < 0x110000) : ∀ b ∈ utf8Bytes n, b < 256 := by
  intro b hb
  unfold utf8Bytes at hb
  split at hb
  · simp at hb; omega
  · split at hb
    · simp [List.mem_cons] at hb
      rcases hb with hb | hb <;> omega
    · split at hb
      · simp [List.mem_cons] at hb
        rcases hb with hb | hb | hb <;> omega
      · simp [List.mem_cons] at hb
        rcases hb with hb | hb | hb | hb <;> omega

/-- Decoding a run of percent-escaped bytes prepends those bytes. -/
theorem percentDecodeBytes_escapeRun (bs : List Nat) (hb : ∀ b ∈ bs, b < 256) (l : List Char) :
    percentDecodeBytes (bs.flatMap escapeByte ++ l)
      = (percentDecodeBytes l).map (fun ds => bs ++ ds) := by
  induction bs with
  | nil =>
    simp only [List.flatMap_nil, List.nil_append]
    cases percentDecodeBytes l <;> simp
  | cons b bs ih =>
    simp only [List.flatMap_cons, List.append_assoc]
    rw [percentDecodeBytes_escapeByte b (hb b (by simp)) _,
      ih (fun x hx => hb x (by simp [hx]))]
    cases percentDecodeBytes l <;> simp

/-- The percent sign is not in the unescaped set. -/
theorem uriUnescaped_ne_percent {c : Char} (h : isUriUnescaped c = true) : c ≠ '%' := by
  intro he
  rw [he] at h
  exact absurd h (by decide)

/-- Decoding the encoding of one character prepends its UTF-8 bytes. -/
theorem percentDecodeBytes_encodeChar (c : Char) (l : List Char) :
    percentDecodeBytes (encodeChar c ++ l)
      = (percentDecodeBytes l).map (fun bs => utf8Bytes c.toNat ++ bs) := by
  by_cases h : isUriUnescaped c = true
  · have hne : c ≠ '%' := uriUnescaped_ne_percent h
    rw [encodeChar, if_pos h]
    show percentDecodeBytes (c :: l) = _
    rw [percentDecodeBytes.eq_def]
    simp only [if_neg hne]
  · simp only [encodeChar, if_neg h]
    exact percentDecodeBytes_escapeRun _ (utf8Bytes_lt_256 (char_toNat_lt c)) l

/-- Unfolding of utf8DecodeBytes when the step function succeeds. -/
theorem utf8DecodeBytes_cons_some {b1 n : Nat} {rest rest2 : List Nat}
    (h : utf8Step b1 rest = some (n, rest2)) :
    utf8DecodeBytes (b1 :: rest)
      = (utf8DecodeBytes rest2).map (fun cs => Char.ofNat n :: cs) := by
  conv_lhs => rw [utf8DecodeBytes.eq_def]
  split
  · rename_i x heq
    exact absurd heq (by simp)
  · rename_i x bb rr heq
    injection heq with hb hr
    subst hb
    subst hr
    split
    · rename_i n2 rest3 heq2
      rw [h] at heq2
      simp only [Option.some.injEq, Prod.mk.injEq] at heq2
      obtain ⟨rfl, rfl⟩ := heq2
      rfl
    · rename_i heq2
      rw [h] at heq2
      simp at heq2

/-- The step function on a one-byte sequence. -/
theorem utf8Step_one {b1 : Nat} (h1 : b1 < 0x80) (l : List Nat) :
    utf8Step b1 l = some (b1, l) := by
  simp only [utf8Step, if_pos h1]

/-- The step function on a two-byte sequence. -/
theorem utf8Step_two {b1 b2 : Nat} (l : List Nat)
    (h1 : ¬ b1 < 0x80) (h2 : ¬ b1 < 0xC2) (h3 : b1 < 0xE0)
    (h4 : 0x80 ≤ b2 ∧ b2 < 0xC0) :
    utf8Step b1 (b2 :: l) = some ((b1 - 0xC0) * 64 + (b2 - 0x80), l) := by
  simp only [utf8Step, if_neg h1, if_neg h2, if_pos h3, if_pos h4]

/-- The step function on a three-byte sequence. -/
theorem utf8Step_three {b1 b2 b3 : Nat} (l : List Nat)
    (h1 : ¬ b1 < 0x80) (h2 : ¬ b1 < 0xC2) (h3 : ¬ b1 < 0xE0) (h4 : b1 < 0xF0)
    (h5 : (0x80 ≤ b2 ∧ b2 < 0xC0) ∧ (0x80 ≤ b3 ∧ b3 < 0xC0))
    (h6 : 0x800 ≤ (b1 - 0xE0) * 4096 + (b2 - 0x80) * 64 + (b3 - 0x80) ∧
          ((b1 - 0xE0) * 4096 + (b2 - 0x80) * 64 + (b3 - 0x80) < 0xD800 ∨
           0xDFFF < (b1 - 0xE0) * 4096 + (b2 - 0x80) * 64 + (b3 - 0x80))) :
    utf8Step b1 (b2 :: b3 :: l)
      = some ((b1 - 0xE0) * 4096 + (b2 - 0x80) * 64 + (b3 - 0x80), l) := by
  simp only [utf8Step, if_neg h1, if_neg h2, if_neg h3, if_pos h4, if_pos h5, if_pos h6]

/-- The step function on a four-byte sequence. -/
theorem utf8Step_four {b1 b2 b3 b4 : Nat} (l : List Nat)
    (h1 : ¬ b1 < 0x80) (h2 : ¬ b1 < 0xC2) (h3 : ¬ b1 < 0xE0) (h4 : ¬ b1 < 0xF0)
    (h5 : b1 < 0xF5)
    (h6 : (0x80 ≤ b2 ∧ b2 < 0xC0) ∧ (0x80 ≤ b3 ∧ b3 < 0xC0) ∧ (0x80 ≤ b4 ∧ b4 < 0xC0))
    (h7 : 0x10000 ≤ (b1 - 0xF0) * 262144 + (b2 - 0x80) * 4096 + (b3 - 0x80) * 64 + (b4 - 0x80) ∧
          (b1 - 0xF0) * 262144 + (b2 - 0x80) * 4096 + (b3 - 0x80) * 64 + (b4 - 0x80) < 0x110000) :
    utf8Step b1 (b2 :: b3 :: b4 :: l)
      = some ((b1 - 0xF0) * 262144 + (b2 - 0x80) * 4096 + (b3 - 0x80) * 64 + (b4 - 0x80), l) := by
  simp only [utf8Step, if_neg h1, if_neg h2, if_neg h3, if_neg h4, if_pos h5, if_pos h6,
    if_pos h7]

/-- Decoding the UTF-8 bytes of one character prepends that character. -/
theorem utf8DecodeBytes_utf8Bytes (c : Char) (l : List Nat) :
    utf8DecodeBytes (utf8Bytes c.toNat ++ l)
      = (utf8DecodeBytes l).map (fun cs => c :: cs) := by
  have hsur : c.toNat < 0xD800 ∨ 0xDFFF < c.toNat := char_not_surrogate c
  have hval : c.toNat < 0x110000 := char_toNat_lt c
  by_cases h1 : c.toNat < 0x80
  · have hb : utf8Bytes c.toNat = [c.toNat] := by rw [utf8Bytes, if_pos h1]
    rw [hb]
    show utf8DecodeBytes (c.toNat :: l) = _
    rw [utf8DecodeBytes_cons_some (utf8Step_one h1 l), Char.ofNat_toNat]
  · by_cases h2 : c.toNat < 0x800
    · have hb : utf8Bytes c.toNat = [0xC0 + c.toNat / 64, 0x80 + c.toNat % 64] := by
        rw [utf8Bytes, if_neg h1, if_pos h2]
      rw [hb]
      show utf8DecodeBytes ((0xC0 + c.toNat / 64) :: (0x80 + c.toNat % 64) :: l) = _
      rw [utf8DecodeBytes_cons_some
        (utf8Step_two l (by omega) (by omega) (by omega) (by omega))]
      have harith : (0xC0 + c.toNat / 64 - 0xC0) * 64 + (0x80 + c.toNat % 64 - 0x80)
          = c.toNat := by omega
      rw [harith, Char.ofNat_toNat]
    · by_cases h3 : c.toNat < 0x10000
      · have hb : utf8Bytes c.toNat
            = [0xE0 + c.toNat / 4096, 0x80 + c.toNat / 64 % 64, 0x80 + c.toNat % 64] := by
          rw [utf8Bytes, if_neg h1, if_neg h2, if_pos h3]
        rw [hb]
        show utf8DecodeBytes
            ((0xE0 + c.toNat / 4096) :: (0x80 + c.toNat / 64 % 64) :: (0x80 + c.toNat % 64) :: l)
            = _
        rw [utf8DecodeBytes_cons_some
          (utf8Step_three l (by omega) (by omega) (by omega) (by omega) (by omega) (by omega))]
        have harith : (0xE0 + c.toNat / 4096 - 0xE0) * 4096
            + (0x80 + c.toNat / 64 % 64 - 0x80) * 64 + (0x80 + c.toNat % 64 - 0x80)
            = c.toNat := by omega
        rw [harith, Char.ofNat_toNat]
      · have hb : utf8Bytes c.toNat
            = [0xF0 + c.toNat / 262144, 0x80 + c.toNat / 4096 % 64,
               0x80 + c.toNat / 64 % 64, 0x80 + c.toNat % 64] := by
          rw [utf8Bytes, if_neg h1, if_neg h2, if_neg h3]
        rw [hb]
        show utf8DecodeBytes
            ((0xF0 + c.toNat / 262144) :: (0x80 + c.toNat / 4096 % 64)
              :: (0x80 + c.toNat / 64 % 64) :: (0x80 + c.toNat % 64) :: l)
            = _
        rw [utf8DecodeBytes_cons_some
          (utf8Step_four l (by omega) (by omega) (by omega) (by omega) (by omega) (by omega)
            (by omega))]
        have harith : (0xF0 + c.toNat / 262144 - 0xF0) * 262144
            + (0x80 + c.toNat / 4096 % 64 - 0x80) * 4096
            + (0x80 + c.toNat / 64 % 64 - 0x80) * 64 + (0x80 + c.toNat % 64 - 0x80)
            = c.toNat := by omega
        rw [harith, Char.ofNat_toNat]

/-- Decoding the percent-encoding of a character list yields its UTF-8
bytes. -/
theorem percentDecodeBytes_encode (cs l : List Char) :
    percentDecodeBytes (cs.flatMap encodeChar ++ l)
      = (percentDecodeBytes l).map (fun bs => cs.flatMap (fun c => utf8Bytes c.toNat) ++ bs) := by
  induction cs with
  | nil =>
    simp only [List.flatMap_nil, List.nil_append]
    cases percentDecodeBytes l <;> simp
  | cons c cs ih =>
    simp only [List.flatMap_cons, List.append_assoc]
    rw [percentDecodeBytes_encodeChar, ih]
    cases percentDecodeBytes l <;> simp

/-- UTF-8 decoding of the concatenated UTF-8 bytes of a character list. -/
theorem utf8DecodeBytes_flatMap (cs : List Char) (l : List Nat) :
    utf8DecodeBytes (cs.flatMap (fun c => utf8Bytes c.toNat) ++ l)
      = (utf8DecodeBytes l).map (fun ds => cs ++ ds) := by
  induction cs with
  | nil =>
    simp only [List.flatMap_nil, List.nil_append]
    cases utf8DecodeBytes l <;> simp
  | cons c cs ih =>
    simp only [List.flatMap_cons, List.append_assoc]
    rw [utf8DecodeBytes_utf8Bytes, ih]
    cases utf8DecodeBytes l <;> simp

/-- Round trip on whole strings: decoding the encoding of any string
returns exactly the string. -/
theorem decodeURIComponent_encodeURIComponent (s : String) :
    decodeURIComponent (encodeURIComponent s) = some s := by
  obtain ⟨cs⟩ := s
  have h1 : percentDecodeBytes (cs.flatMap encodeChar)
      = some (cs.flatMap (fun c => utf8Bytes c.toNat)) := by
    have h := percentDecodeBytes_encode cs []
    rw [List.append_nil] at h
    simpa [percentDecodeBytes] using h
  have h2 : utf8DecodeBytes (cs.flatMap (fun c => utf8Bytes c.toNat)) = some cs := by
    have h := utf8DecodeBytes_flatMap cs []
    rw [List.append_nil] at h
    simpa [utf8DecodeBytes] using h
  show (percentDecodeBytes (cs.flatMap encodeChar)).bind
      (fun bs => (utf8DecodeBytes bs).map (fun ds => String.mk ds)) = some (String.mk cs)
  rw [h1]
  show (utf8DecodeBytes (cs.flatMap (fun c => utf8Bytes c.toNat))).map (fun ds => String.mk ds)
      = some (String.mk cs)
  rw [h2]
  rfl

/-- Characters of an encoded string are never hash, ampersand or
question mark. -/
theorem mem_encodeChar_ne {c d : Char} (hd : d ∈ encodeChar c) :
    d ≠ '#' ∧ d ≠ '&' ∧ d ≠ '?' := by
  unfold encodeChar at hd
  split at hd
  · rename_i h
    simp only [List.mem_singleton] at hd
    subst hd
    refine ⟨?_, ?_, ?_⟩ <;> intro he <;> rw [he] at h <;> exact absurd h (by decide)
  · simp only [List.mem_flatMap] at hd
    obtain ⟨b, hb, hdb⟩ := hd
    have hb2 : b < 256 := utf8Bytes_lt_256 (char_toNat_lt c) b hb
    simp only [escapeByte, List.mem_cons, List.not_mem_nil, or_false] at hdb
    have hx : ∀ k < 16, hexUpper k ≠ '#' ∧ hexUpper k ≠ '&' ∧ hexUpper k ≠ '?' := by decide
    rcases hdb with rfl | rfl | rfl
    · exact ⟨by decide, by decide, by decide⟩
    · exact hx _ (by omega)
    · exact hx _ (by omega)

/-- Characters of the data of an encoded string are never hash,
ampersand or question mark. -/
theorem mem_encode_data_ne (u : String) {d : Char}
    (hd : d ∈ (encodeURIComponent u).data) : d ≠ '#' ∧ d ≠ '&' ∧ d ≠ '?' := by
  have hdata : (encodeURIComponent u).data = u.data.flatMap encodeChar := rfl
  rw [hdata] at hd
  simp only [List.mem_flatMap] at hd
  obtain ⟨c, _, hdc⟩ := hd
  exact mem_encodeChar_ne hdc

/-- afterQ skips a question-mark-free prefix. -/
theorem afterQ_append {pre : List Char} (h : ∀ c ∈ pre, c ≠ '?') (l : List Char) :
    afterQ (pre ++ l) = afterQ l := by
  induction pre with
  | nil => rfl
  | cons c cs ih =>
    simp only [List.cons_append, afterQ]
    rw [if_neg (h c (by simp))]
    exact ih (fun x hx => h x (by simp [hx]))

/-- takeWhile keeps a list whose members all satisfy the predicate. -/
theorem takeWhile_eq_self_of_all {p : Char → Bool} {l : List Char}
    (h : ∀ c ∈ l, p c = true) : l.takeWhile p = l := by
  induction l with
  | nil => rfl
  | cons c cs ih =>
    rw [List.takeWhile_cons, if_pos (h c (by simp)), ih (fun x hx => h x (by simp [hx]))]

/-- splitOnAmp does not split a list without ampersands. -/
theorem splitOnAmp_no_amp {l : List Char} (h : ∀ c ∈ l, c ≠ '&') :
    splitOnAmp l = [l] := by
  induction l with
  | nil => rfl
  | cons c cs ih =>
    simp only [splitOnAmp]
    rw [if_neg (h c (by simp)), ih (fun x hx => h x (by simp [hx]))]
    rfl

/-- The url query parameter of the produced target address is exactly
the encoded source address. -/
theorem urlQueryParam_targetUrl (u : String) :
    urlQueryParam (targetUrl u) = some (encodeURIComponent u) := by
  have hbase : shareBase.data
      = "https://curaq.pages.dev/share".data ++ ('?' :: ['u', 'r', 'l', '=']) := by decide
  have hdata : (targetUrl u).data
      = "https://curaq.pages.dev/share".data
        ++ ('?' :: ('u' :: 'r' :: 'l' :: '=' :: (encodeURIComponent u).data)) := by
    show (shareBase ++ encodeURIComponent u).data = _
    rw [String.data_append, hbase]
    simp
  have hq : afterQ (targetUrl u).data
      = some ('u' :: 'r' :: 'l' :: '=' :: (encodeURIComponent u).data) := by
    rw [hdata, afterQ_append (by decide)]
    simp [afterQ]
  have hrest : ∀ d ∈ ('u' :: 'r' :: 'l' :: '=' :: (encodeURIComponent u).data),
      d ≠ '#' ∧ d ≠ '&' := by
    intro d hd
    simp only [List.mem_cons] at hd
    rcases hd with rfl | rfl | rfl | rfl | hd
    · exact ⟨by decide, by decide⟩
    · exact ⟨by decide, by decide⟩
    · exact ⟨by decide, by decide⟩
    · exact ⟨by decide, by decide⟩
    · exact ⟨(mem_encode_data_ne u hd).1, (mem_encode_data_ne u hd).2.1⟩
  have htake : ('u' :: 'r' :: 'l' :: '=' :: (encodeURIComponent u).data).takeWhile
      (fun c => c != '#') = 'u' :: 'r' :: 'l' :: '=' :: (encodeURIComponent u).data := by
    refine takeWhile_eq_self_of_all ?_
    intro d hd
    simp only [bne_iff_ne, ne_eq]
    exact (hrest d hd).1
  have hsplit : splitOnAmp ('u' :: 'r' :: 'l' :: '=' :: (encodeURIComponent u).data)
      = ['u' :: 'r' :: 'l' :: '=' :: (encodeURIComponent u).data] := by
    refine splitOnAmp_no_amp ?_
    intro d hd
    exact (hrest d hd).2
  have hstrip : stripUrlEq ('u' :: 'r' :: 'l' :: '=' :: (encodeURIComponent u).data)
      = some ((encodeURIComponent u).data) := by
    simp [stripUrlEq]
  show (afterQ (targetUrl u).data).bind _ = _
  rw [hq]
  show ((splitOnAmp (('u' :: 'r' :: 'l' :: '=' :: (encodeURIComponent u).data).takeWhile
      (fun c => c != '#'))).findSome? stripUrlEq).map (fun v => String.mk v)
      = some (encodeURIComponent u)
  rw [htake, hsplit]
  rw [List.findSome?_cons_of_isSome _ (by rw [hstrip]; rfl), hstrip]
  rfl

/-! Claim theorems -/

/-- Claim C1: for every active tab whose url is a non-empty string u,
the handler opens a new tab whose address equals the fixed literal
target base concatenated with the percent-encoded form of u. -/
theorem c1_opens_encoded_target (tabs : List Tab) (t : Tab) (u : String)
    (h1 : tabs.head? = some t) (h2 : t.url = some u) (h3 : u ≠ "") :
    clickHandler tabs = [shareBase ++ encodeURIComponent u] := by
  simp [clickHandler, h1, h2, h3, targetUrl]

/-- Witness for claim C1 at a concrete tab state. -/
theorem c1_witness :
    [Tab.mk (some "https://x.example/a b")].head? = some (Tab.mk (some "https://x.example/a b"))
    ∧ clickHandler [Tab.mk (some "https://x.example/a b")]
        = [shareBase ++ encodeURIComponent "https://x.example/a b"] :=
  ⟨rfl, c1_opens_encoded_target _ _ _ rfl rfl (by decide)⟩

/-- Claim C2 as stated is false: the code leaves the reserved
character at code point 33 (the exclamation mark) unescaped, while the
claim requires every character of its reserved set to be escaped. -/
theorem c2_counterexample : ¬ claimC2 := by
  intro h
  exact absurd (h.1 '!' (by decide)) (by decide)

/-- Claim C2 amended: the encoding escapes every character of the
reserved set except the five at code points 33 `!`, 42 `*`, 39
(apostrophe), 40 `(`, 41 `)`, which it leaves as themselves, and leaves
every unreserved character (ASCII alphanumerics and code points 45 `-`,
95 `_`, 46 `.`, 126 `~`) unescaped. -/
theorem c2_amended :
    escapedByCodeC2.all escapes = true
    ∧ (∀ c : Char, isUnreservedC2 c = true → encodeChar c = [c])
    ∧ keptByCodeC2.all (fun c => encodeChar c == [c]) = true := by
  refine ⟨by decide, ?_, by decide⟩
  intro c hc
  have h : isUriUnescaped c = true := by
    simp only [isUnreservedC2, isUriUnescaped, Bool.or_eq_true, Bool.and_eq_true,
      decide_eq_true_eq, beq_iff_eq] at hc ⊢
    omega
  rw [encodeChar, if_pos h]

/-- Witness for the amended claim C2 at a concrete character. -/
theorem c2_amended_witness : isUnreservedC2 'A' = true ∧ encodeChar 'A' = ['A'] :=
  ⟨by decide, c2_amended.2.1 'A' (by decide)⟩

/-- Claim C3: for every tab address u, percent-decoding the value of
the url query parameter of the produced target address yields exactly
u (the encode-then-decode round trip is the identity). -/
theorem c3_roundtrip (u : String) :
    (urlQueryParam (targetUrl u)).bind decodeURIComponent = some u := by
  rw [urlQueryParam_targetUrl]
  show decodeURIComponent (encodeURIComponent u) = some u
  exact decodeURIComponent_encodeURIComponent u

/-- Claim C4: when the query returns no tab, or a tab with an absent or
empty address, the handler issues zero tab-creation requests. -/
theorem c4_silent_noop (tabs : List Tab)
    (h : tabs.head? = none ∨ tabs.head? = some (Tab.mk none)
      ∨ tabs.head? = some (Tab.mk (some ""))) :
    clickHandler tabs = [] := by
  rcases h with h | h | h <;> simp [clickHandler, h]

/-- Witness for claim C4 at the empty query result. -/
theorem c4_witness :
    (([] : List Tab).head? = none ∨ ([] : List Tab).head? = some (Tab.mk none)
      ∨ ([] : List Tab).head? = some (Tab.mk (some "")))
    ∧ clickHandler [] = [] :=
  ⟨Or.inl rfl, c4_silent_noop [] (Or.inl rfl)⟩

/-- Claim C5: per successful invocation, exactly one tab-creation
request is issued. -/
theorem c5_exactly_one (tabs : List Tab) (t : Tab) (u : String)
    (h1 : tabs.head? = some t) (h2 : t.url = some u) (h3 : u ≠ "") :
    (clickHandler tabs).length = 1 := by
  simp [clickHandler, h1, h2, h3]

/-- Witness for claim C5 at a concrete tab state. -/
theorem c5_witness :
    [Tab.mk (some "https://a.example/")].head? = some (Tab.mk (some "https://a.example/"))
    ∧ (clickHandler [Tab.mk (some "https://a.example/")]).length = 1 :=
  ⟨rfl, c5_exactly_one _ _ _ rfl rfl (by decide)⟩

/-- Claim C6: if the host query rejects, the handler issues no
tab-creation request and the error propagates unhandled. -/
theorem c6_query_failure : handlerRun (Except.error ()) = (Except.error (), []) := rfl

/-- Claim C7: on the active tab url https://example.com/日本語 the handler
opens exactly the address given in the specification, with the non-ASCII
characters UTF-8 percent-encoded. -/
theorem c7_concrete_japanese :
    clickHandler [Tab.mk (some "https://example.com/日本語")]
      = ["https://curaq.pages.dev/share?url=https%3A%2F%2Fexample.com%2F%E6%97%A5%E6%9C%AC%E8%AA%9E"] := by
  decide

/-- Claim C8: the handler is deterministic across invocations — equal
observed tab states give equal requests — and two rapid clicks on the
tab https://a.test/ each independently issue the same request. -/
theorem c8_deterministic :
    (∀ tabs1 tabs2 : List Tab, tabs1 = tabs2 → clickHandler tabs1 = clickHandler tabs2)
    ∧ twoClicks [Tab.mk (some "https://a.test/")] [Tab.mk (some "https://a.test/")]
      = (["https://curaq.pages.dev/share?url=https%3A%2F%2Fa.test%2F"],
         ["https://curaq.pages.dev/share?url=https%3A%2F%2Fa.test%2F"]) := by
  constructor
  · intro tabs1 tabs2 h
    rw [h]
  · decide

/-- Witness for claim C8 at a concrete pair of equal tab states. -/
theorem c8_witness :
    clickHandler [Tab.mk (some "https://a.test/")]
      = clickHandler [Tab.mk (some "https://a.test/")] :=
  c8_deterministic.1 [Tab.mk (some "https://a.test/")] [Tab.mk (some "https://a.test/")] rfl

/-- Claim C9: the handler depends only on the first element of the
query result — later tabs are ignored, and the empty list behaves like
an absent tab. -/
theorem c9_head_only :
    (∀ (t : Tab) (rest : List Tab), clickHandler (t :: rest) = clickHandler [t])
    ∧ clickHandler [] = [] :=
  ⟨fun _ _ => rfl, rfl⟩

/-- Claim C10: with no element of id share-btn, script load completes
without error, registers zero handlers, and later clicks can never open
a tab. -/
theorem c10_missing_element :
    optChainRegister none = Except.ok 0
    ∧ ∀ tabs : List Tab, clickOnPage none tabs = [] :=
  ⟨rfl, fun _ => rfl⟩

end CuraqClipper
